import Mathlib

/-!
Shallow embedding of src/ebh.cc, the single source file of the
easter_bug_hunt repository, together with theorems settling the frozen
claims about it.

The source is a C++ command line codec built from four parts: a Duff
device XOR mask (duffs_device), a recursive head/tail diffusion step
(xor_head_with_tail), a base64 style codec (base64encode and
base64decode), and the two pipeline member functions encode and decode.
The file contains a number of semantic slips that the embedding keeps
faithfully; only outright syntax slips (a missing comma in a parameter
list, a keyword used as an identifier, a missing opening brace of a for
loop body) are repaired in the minimal way, since they carry no
alternative semantics.  The slips that do carry semantics and are kept:

* the base case of xor_head_with_tail tests the literal comparison
  1 == 0, which never holds, so the recursion always reaches the empty
  message, where substr(1) throws std::out_of_range;
* the encoding branch of xor_head_with_tail recurses on the tail with
  the encoding flag set to false;
* in the decoding branch of xor_head_with_tail the for loop bound is
  i < 1, so it runs zero times, the tail there is a fresh local that
  shadows the outer one and whose recursion result is discarded, and the
  final copy loop reads the outer, still empty, tail;
* kPi is declared static const int with the double value 3.145926535, so its
  value is the truncated integer 3;
* duffs_device computes right_pad = 4 - left_pad even when left_pad is
  zero, and the switch entry statements of the Duff device run before
  the first loop test, so for message lengths 1 to 3 they write at
  indices at or past the end of the string;
* init_base64table is never called anywhere, so the member
  base64table_ keeps its default value, the empty string;
* base64encode computes bits = len * 9, reads the second source byte at
  the index given by the value of the first byte, never declares its
  third source byte s2, looks all four output characters up at the same
  table index, and resizes the output to (bits + 5) / 6;
* base64decode reads five characters per iteration while advancing the
  loop by 24 bits, never checks the result of find (npos is truncated
  to the byte 0xFF), resizes the output to the input length, and the
  trailing statement if (...); makes the final resize to dst_len - 1
  unconditional.

Modelling conventions: bytes are Nat values and every store into a char
or unsigned char truncates mod 256; a read of a std::string at index i
is defined for i at most the size (reading the terminating null byte,
value 0, at i equal to the size) and is undefined behaviour for larger
i, modelled as none; a write at an index at or past the size is
undefined behaviour, modelled as none; a thrown exception
(std::out_of_range from substr, std::length_error from resize) is
modelled as none; every while loop is written with an explicit fuel
argument whose value at each call site strictly exceeds the possible
number of iterations, with the genuine loop test kept inside, so the
fuel is never the reason a loop stops.
-/

namespace EBH

/-- Source line 50: the hard coded mask of the Duff device. -/
def kDuffsMask : Nat := 0x12345678

/-- Source line 55: static const int kPi = 3.145926535.  The double
literal is truncated by the int declaration, so the stored
value is 3. -/
def kPi : Nat := 3

/-- npos of std::string, a 64 bit size_t. -/
def strNpos : Nat := 2 ^ 64 - 1

/-- Read of a std::string through operator[]: defined for an index up to
and including the size (the read at the size yields the terminating null
byte); any larger index is undefined behaviour, modelled as none. -/
def strGet (s : List Nat) (i : Nat) : Option Nat :=
  if i ≤ s.length then some (s.getD i 0) else none

/-- std::string::find on a single character: index of the first
occurrence, npos when the character is absent. -/
def strFind (s : List Nat) (c : Nat) : Nat :=
  match s.findIdx? (fun b => b == c) with
  | some i => i
  | none => strNpos

/-- std::string::resize(n, 0): truncate, or pad with zero bytes. -/
def resizeStr (s : List Nat) (n : Nat) : List Nat :=
  if n ≤ s.length then s.take n else s ++ List.replicate (n - s.length) 0

/-- The member base64table_ as it stands whenever encode or decode runs:
init_base64table is never called anywhere in the source, so the field
keeps its default value, the empty string. -/
def base64table_ : List Nat := []

/-- One statement message_[i++] ^= m of the Duff device.  The compound
assignment writes message_[i], which is undefined behaviour (none) when
i is at or past the size of the string. -/
def duffXor (s : List Nat) (i : Nat) (m : Nat) : Option (List Nat) :=
  if i < s.length then some (s.set i (Nat.xor (s.getD i 0) m % 256)) else none

/-- The while part of the Duff device, source lines 154 to 163, entered
at the top (the case 0 label): the loop test runs first, then the four
unrolled XOR statements.  The fuel at every call site strictly exceeds
the possible iteration count (i advances by 4 toward stop each pass), so
only the test i < stop decides when the loop stops. -/
def duffLoop (m0 m1 m2 m3 : Nat) (stop : Int) : Nat → Nat → List Nat → Option (List Nat)
  | 0, _, s => some s
  | fuel + 1, i, s =>
    if (i : Int) < stop then do
      let s ← duffXor s i m0
      let s ← duffXor s (i + 1) m1
      let s ← duffXor s (i + 2) m2
      let s ← duffXor s (i + 3) m3
      duffLoop m0 m1 m2 m3 stop fuel (i + 4) s
    else some s

/-- EasterBugHunt::duffs_device, source lines 132 to 165.  left_pad is
len mod 4 and right_pad is 4 - left_pad, even when left_pad is zero.
The switch on the remainder jumps into the unrolled loop: entering at
case 1, 2 or 3 executes the trailing one, two or three XOR statements
before the first loop test, exactly as the source falls through. -/
def duffs_device (mask : Nat) (msg : List Nat) : Option (List Nat) :=
  let len := msg.length
  let leftPad := len % 4
  let rightPad := 4 - leftPad
  let m0 := (mask >>> 24) % 256
  let m1 := (mask >>> 16) % 256
  let m2 := (mask >>> 8) % 256
  let m3 := mask % 256
  let remainder := len % 4
  let i := leftPad
  let stop : Int := (len : Int) - (rightPad : Int)
  let fuel := len + 1
  if remainder = 0 then duffLoop m0 m1 m2 m3 stop fuel i msg
  else if remainder = 1 then do
    let s ← duffXor msg i m3
    duffLoop m0 m1 m2 m3 stop fuel (i + 1) s
  else if remainder = 2 then do
    let s ← duffXor msg i m2
    let s ← duffXor s (i + 1) m3
    duffLoop m0 m1 m2 m3 stop fuel (i + 2) s
  else do
    let s ← duffXor msg i m1
    let s ← duffXor s (i + 1) m2
    let s ← duffXor s (i + 2) m3
    duffLoop m0 m1 m2 m3 stop fuel (i + 3) s

/-- The for loop of the encoding branch, source lines 201 to 204: XOR
every byte of the tail with the xor value; the store back into a char
truncates mod 256. -/
def xorTail (t : List Nat) (x : Nat) : List Nat :=
  t.map (fun b => Nat.xor b x % 256)

/-- The final copy loop of xor_head_with_tail, source lines 217 to 219:
message[i] = tail[i-1] for i = 1 to l - 1, with std::string read
semantics on the tail (the read at the size yields the null byte, any
later read is undefined behaviour, none). -/
def replaceTail (msg t : List Nat) : Option (List Nat) :=
  match msg with
  | [] => some []
  | h :: rest =>
    if rest.length ≤ t.length + 1 then some (h :: (t ++ [0]).take rest.length)
    else none

/-- EasterBugHunt::xor_head_with_tail, source lines 180 to 220, with the
slips kept: the base case tests 1 == 0 and never fires, so an empty
message reaches substr(1), which throws std::out_of_range (none); the
xor value is 2 * kPi * message[0] with kPi the truncated integer 3; the
encoding branch recurses on the tail with the flag false and then XORs
the tail; the decoding branch runs a zero iteration for loop, builds a
fresh local tail that shadows the outer one, recurses on it and discards
the result; both branches end in the copy loop over the outer tail. -/
def xor_head_with_tail : List Nat → Bool → Option (List Nat)
  | [], _ => none
  | h :: t, true => do
    let t1 ← xor_head_with_tail t false
    replaceTail (h :: t) (xorTail t1 (2 * kPi * h))
  | h :: t, false => do
    let _ ← xor_head_with_tail t false
    replaceTail (h :: t) []

/-- The for loop of base64encode, source lines 242 to 261.  Kept slips:
the second source byte is read at the index given by the value of the
first one (message_[s0++]), which also bumps s0; the third source byte
s2 is never declared in the source, so its value is the parameter s2v;
all four table lookups use the index d0, and since d0 has just been
overwritten by its own lookup, the last three look up the result of the
first.  The table, never filled in, is the empty string, so a lookup at
index 0 reads the null byte and any other index is undefined behaviour.
The source index si advances by one per iteration. -/
def encodeLoop (m : List Nat) (bits s2v : Nat) : Nat → Nat → Nat → List Nat → Option (List Nat)
  | 0, _, _, dst => some dst
  | fuel + 1, done, si, dst =>
    if done < bits then do
      let s0 ← strGet m si
      let s1 ← strGet m s0
      let s0 := (s0 + 1) % 256
      let s2 := s2v % 256
      let d0 := s0 &&& 0x3F
      let _d1 := ((s0 >>> 6) ||| (s1 <<< 2)) &&& 0x3E
      let _d2 := ((s1 >>> 4) ||| (s2 <<< 4)) &&& 0x3F
      let _d3 := s2 >>> 2
      let e0 ← strGet base64table_ d0
      let e1 ← strGet base64table_ e0
      let e2 ← strGet base64table_ e0
      let e3 ← strGet base64table_ e0
      encodeLoop m bits s2v fuel (done + 24) (si + 1) (dst ++ [e0, e1, e2, e3])
    else some dst

/-- EasterBugHunt::base64encode, source lines 229 to 272, with the slips
kept: bits = len * 9, three zero bytes are appended so the loop does not
read past the buffer, and the output is resized to (bits + 5) / 6 with
zero padding.  The parameter s2v stands for the undeclared variable s2
of the loop body; the theorems quantify over it. -/
def base64encode (s2v : Nat) (msg : List Nat) : Option (List Nat) := do
  let len := msg.length
  let bits := len * 9
  let m := msg ++ [0, 0, 0]
  let dst ← encodeLoop m bits s2v bits 0 0 []
  let dstLen := (bits + 5) / 6
  some (resizeStr dst dstLen)

/-- The for loop of base64decode, source lines 292 to 312.  Kept slips:
five characters are read per iteration (the fifth is never used) while
done advances by only 24 bits, so the source index runs ahead of the
consumed bits; find over the never filled in, empty table yields npos,
which the store into an unsigned char truncates to 0xFF; the three
output bytes are built from int shifts and ORs truncated mod 256. -/
def decodeLoop (m : List Nat) (bits : Nat) : Nat → Nat → Nat → List Nat → Option (List Nat)
  | 0, _, _, dst => some dst
  | fuel + 1, done, si, dst =>
    if done < bits then do
      let s0 ← strGet m si
      let s1 ← strGet m (si + 1)
      let s2 ← strGet m (si + 2)
      let s3 ← strGet m (si + 3)
      let _s4 ← strGet m (si + 4)
      let a0 := strFind base64table_ s0 % 256
      let a1 := strFind base64table_ s1 % 256
      let a2 := strFind base64table_ s2 % 256
      let a3 := strFind base64table_ s3 % 256
      let d0 := (a0 ||| (a1 <<< 16)) % 256
      let d1 := ((a1 >>> 2) ||| (a2 <<< 4)) % 256
      let d2 := ((a2 >>> 4) ||| (a3 <<< 2)) % 256
      decodeLoop m bits fuel (done + 24) (si + 5) (dst ++ [d0, d1, d2])
    else some dst

/-- EasterBugHunt::base64decode, source lines 278 to 328, with the slips
kept: bits = len * 6; the four appended sentinels are the characters -,
=, =, =; after the loop the output is resized to the input length len
(not to dst_len); the statement if (int last_is_zero = dst.back() == 0);
evaluates dst.back() (undefined behaviour on an empty string, none) and
then, because of the stray semicolon, the resize to dst_len - 1 runs
unconditionally.  A resize to the int value -1 (when dst_len is 0) would
convert to a huge size_t and throw std::length_error, modelled none. -/
def base64decode (msg : List Nat) : Option (List Nat) := do
  let len := msg.length
  let bits := len * 6
  let m := msg ++ [45, 61, 61, 61]
  let dst ← decodeLoop m bits bits 0 0 []
  let dstLen := (bits + 7) / 8
  let dst := resizeStr dst len
  let _last ← dst.getLast?
  if dstLen = 0 then none else some (resizeStr dst (dstLen - 1))

/-- EasterBugHunt::encode, source lines 109 to 114, minus the logging:
the Duff device, then the diffusion step with encoding true, then the
base64 stage.  The parameter s2v is the undeclared variable of
base64encode, threaded through. -/
def encode (s2v : Nat) (msg : List Nat) : Option (List Nat) := do
  let m1 ← duffs_device kDuffsMask msg
  let m2 ← xor_head_with_tail m1 true
  base64encode s2v m2

/-- EasterBugHunt::decode, source lines 117 to 122, minus the logging:
the base64 stage, then the diffusion step with encoding false, then the
Duff device. -/
def decode (msg : List Nat) : Option (List Nat) := do
  let m1 ← base64decode msg
  let m2 ← xor_head_with_tail m1 false
  duffs_device kDuffsMask m2

/-- Modelled from the spec: MaskTransform.apply of section 4.1, written
only as the comparison point for claim C4 about duffs_device.  leadPad
is L mod 4; trailPad is 4 - leadPad when leadPad is nonzero and 0
otherwise; when L < leadPad + trailPad the message passes through; else
every interior byte at index i in [leadPad, L - trailPad) is XORed with
the mask byte at (i - leadPad) mod 4, the cycle starting at m0. -/
def maskTransformSpec (mask : Nat) (msg : List Nat) : List Nat :=
  let L := msg.length
  let leadPad := L % 4
  let trailPad := if leadPad = 0 then 0 else 4 - leadPad
  let m0 := (mask >>> 24) % 256
  let m1 := (mask >>> 16) % 256
  let m2 := (mask >>> 8) % 256
  let m3 := mask % 256
  let ms := [m0, m1, m2, m3]
  if L < leadPad + trailPad then msg
  else
    List.zipWith
      (fun i b =>
        if leadPad ≤ i ∧ i < L - trailPad then
          Nat.xor b (ms.getD ((i - leadPad) % 4) 0) % 256
        else b)
      (List.range L) msg

/-! Helper lemmas about the embedded operations. -/

/-- Bind of a some value in the Option monad, by unfolding. -/
theorem optSomeBind {α β : Type} (a : α) (f : α → Option β) : (some a >>= f) = f a := rfl

/-- strGet is defined (and reads getD) at any index up to the size. -/
theorem strGet_eq (s : List Nat) (i : Nat) (h : i ≤ s.length) :
    strGet s i = some (s.getD i 0) := by
  unfold strGet
  exact if_pos h

/-- duffXor succeeds at an in range index, and preserves the length. -/
theorem duffXor_spec (s : List Nat) (i m : Nat) (h : i < s.length) :
    ∃ t, duffXor s i m = some t ∧ t.length = s.length := by
  refine ⟨s.set i (Nat.xor (s.getD i 0) m % 256), ?_, by simp⟩
  unfold duffXor
  exact if_pos h

/-- The while part of the Duff device succeeds and preserves the length
whenever stop is at most the size and i is congruent to stop mod 4 (the
situation at every entry with a message of length at least 4): each pass
then writes only in range indices. -/
theorem duffLoop_spec (m0 m1 m2 m3 : Nat) (stop : Int) :
    ∀ (fuel i : Nat) (s : List Nat), stop ≤ (s.length : Int) →
      (stop - (i : Int)) % 4 = 0 →
      ∃ out, duffLoop m0 m1 m2 m3 stop fuel i s = some out ∧ out.length = s.length := by
  intro fuel
  induction fuel with
  | zero => intro i s _ _; exact ⟨s, rfl, rfl⟩
  | succ n ih =>
    intro i s hstop hmod
    by_cases hlt : (i : Int) < stop
    · have hbound : i + 3 < s.length := by omega
      obtain ⟨t1, e1, l1⟩ := duffXor_spec s i m0 (by omega)
      obtain ⟨t2, e2, l2⟩ := duffXor_spec t1 (i + 1) m1 (by omega)
      obtain ⟨t3, e3, l3⟩ := duffXor_spec t2 (i + 2) m2 (by omega)
      obtain ⟨t4, e4, l4⟩ := duffXor_spec t3 (i + 3) m3 (by omega)
      obtain ⟨out, eo, lo⟩ := ih (i + 4) t4 (by omega) (by push_cast; omega)
      refine ⟨out, ?_, by omega⟩
      have step : duffLoop m0 m1 m2 m3 stop (n + 1) i s
          = duffLoop m0 m1 m2 m3 stop n (i + 4) t4 := by
        simp [duffLoop, if_pos hlt, e1, e2, e3, e4]
      rw [step, eo]
    · exact ⟨s, by simp [duffLoop, if_neg hlt], rfl⟩

/-- The decode loop succeeds when every one of its five at a time reads
stays inside the buffer, and then appends exactly three bytes per
iteration (with the empty table, the three bytes are always 0xFF). -/
theorem decodeLoop_spec (m : List Nat) (bits : Nat) :
    ∀ (fuel done si : Nat) (dst : List Nat),
      (∀ k : Nat, done + 24 * k < bits → si + 5 * k + 4 ≤ m.length) →
      (bits - done + 23) / 24 ≤ fuel →
      ∃ out, decodeLoop m bits fuel done si dst = some out ∧
        out.length = dst.length + 3 * ((bits - done + 23) / 24) := by
  intro fuel
  induction fuel with
  | zero =>
    intro done si dst _ hfuel
    exact ⟨dst, rfl, by omega⟩
  | succ n ih =>
    intro done si dst hreads hfuel
    by_cases hdone : done < bits
    · have hr : si + 4 ≤ m.length := by
        have := hreads 0 (by omega)
        omega
      have g0 := strGet_eq m si (by omega)
      have g1 := strGet_eq m (si + 1) (by omega)
      have g2 := strGet_eq m (si + 2) (by omega)
      have g3 := strGet_eq m (si + 3) (by omega)
      have g4 := strGet_eq m (si + 4) (by omega)
      have step : decodeLoop m bits (n + 1) done si dst
          = decodeLoop m bits n (done + 24) (si + 5) (dst ++
            [ (strFind base64table_ (m.getD si 0) % 256 |||
                (strFind base64table_ (m.getD (si + 1) 0) % 256) <<< 16) % 256,
              ((strFind base64table_ (m.getD (si + 1) 0) % 256) >>> 2 |||
                (strFind base64table_ (m.getD (si + 2) 0) % 256) <<< 4) % 256,
              ((strFind base64table_ (m.getD (si + 2) 0) % 256) >>> 4 |||
                (strFind base64table_ (m.getD (si + 3) 0) % 256) <<< 2) % 256 ]) := by
        simp only [decodeLoop, if_pos hdone, g0, g1, g2, g3, g4, optSomeBind]
      obtain ⟨out, eo, lo⟩ := ih (done + 24) (si + 5) (dst ++
            [ (strFind base64table_ (m.getD si 0) % 256 |||
                (strFind base64table_ (m.getD (si + 1) 0) % 256) <<< 16) % 256,
              ((strFind base64table_ (m.getD (si + 1) 0) % 256) >>> 2 |||
                (strFind base64table_ (m.getD (si + 2) 0) % 256) <<< 4) % 256,
              ((strFind base64table_ (m.getD (si + 2) 0) % 256) >>> 4 |||
                (strFind base64table_ (m.getD (si + 3) 0) % 256) <<< 2) % 256 ])
        (fun k hk => by have := hreads (k + 1) (by omega); omega) (by omega)
      refine ⟨out, ?_, ?_⟩
      · rw [step]
        exact eo
      · rw [lo]
        simp only [List.length_append, List.length_cons, List.length_nil]
        omega
    · refine ⟨dst, by simp [decodeLoop, if_neg hdone], by omega⟩

/-- resize always yields exactly the requested length. -/
theorem resizeStr_length (s : List Nat) (n : Nat) : (resizeStr s n).length = n := by
  unfold resizeStr
  rcases le_or_lt n s.length with h | h
  · rw [if_pos h, List.length_take]
    omega
  · rw [if_neg (by omega), List.length_append, List.length_replicate]
    omega

/-- xor_head_with_tail never produces a value: in both directions the
recursion reaches the empty message (the base case tests 1 == 0), where
substr(1) throws std::out_of_range. -/
theorem xhwt_always_none : ∀ (m : List Nat) (e : Bool), xor_head_with_tail m e = none := by
  intro m
  induction m with
  | nil => intro e; cases e <;> rfl
  | cons h t ih =>
    intro e
    have h0 : xor_head_with_tail t false = none := ih false
    cases e <;> simp [xor_head_with_tail, h0]

/-! Theorems settling the claims. -/

/-- Claim C1: the claim says the full pipeline round trips,
decode(encode(M)) = M for every byte sequence M, including the empty
one.  The code refutes it: encode produces no value even for the empty
message, because xor_head_with_tail always ends in substr(1) on an
empty string, which throws.  The theorem evaluates the pipeline at the
empty message, for every value of the undeclared variable s2. -/
theorem c1_pipeline_roundtrip_fails_on_empty :
    ∀ s2v : Nat, encode s2v [] = none ∧ (encode s2v []).bind decode = none := by
  intro s2v
  exact ⟨rfl, rfl⟩

/-- Claim C2: the claim says the diffusion cipher inverts itself,
transform(transform(M, Encode), Decode) = M for every M.  The code
refutes it at the single byte message 72: the Encode direction already
produces no value (the recursion has no working base case and throws),
so the composition cannot give back the message. -/
theorem c2_diffusion_roundtrip_has_no_value :
    (xor_head_with_tail [72] true).bind (fun t => xor_head_with_tail t false) ≠ some [72]
      ∧ xor_head_with_tail [72] true = none := by
  decide

/-- Claim C3: the claim says the mask transform is self inverse on every
message.  The code refutes it at the single byte message 7: the Duff
device entry statement writes at index 1 of a string of size 1, which is
undefined behaviour, so even one application has no value. -/
theorem c3_mask_double_apply_has_no_value :
    (duffs_device kDuffsMask [7]).bind (duffs_device kDuffsMask) ≠ some [7]
      ∧ duffs_device kDuffsMask [7] = none := by
  decide

/-- Claim C4: the claim states the spec masking pattern (trailPad 0 when
leadPad is 0, cycle starting at m0, pass through when the interior is
empty).  The code diverges on all three points: at length 4 it masks
nothing while the spec masks all four bytes; at length 5 it masks the
one interior byte with m3 = 0x78 while the spec uses m0 = 0x12; at
length 1 it writes out of bounds (no value) while the spec passes the
message through. -/
theorem c4_mask_pattern_diverges_from_spec :
    duffs_device kDuffsMask [0, 0, 0, 0] = some [0, 0, 0, 0]
      ∧ maskTransformSpec kDuffsMask [0, 0, 0, 0] = [0x12, 0x34, 0x56, 0x78]
      ∧ duffs_device kDuffsMask [0, 0, 0, 0, 0] = some [0, 0x78, 0, 0, 0]
      ∧ maskTransformSpec kDuffsMask [0, 0, 0, 0, 0] = [0, 0x12, 0, 0, 0]
      ∧ duffs_device kDuffsMask [9] = none
      ∧ maskTransformSpec kDuffsMask [9] = [9] := by
  decide

/-- Claim C5: the claim says the diffusion key is floor(2 pi h) mod 256
and the head byte passes through unmodified.  The code refutes both
parts: kPi is the int 3, so the key at head byte 4 is 2 * 3 * 4 = 24,
not floor(2 pi 4) = 25; and no head byte ever passes through, because
the transform yields no value in either direction. -/
theorem c5_diffusion_key_truncated_and_no_head_passthrough :
    2 * kPi * 4 = 24
      ∧ xor_head_with_tail [4] true = none
      ∧ xor_head_with_tail [4] false = none := by
  decide

/-- Claim C6: the claim says base64 encode always emits output of length
a multiple of 4 with the proper padding sentinels.  The code refutes it
at the one byte message 0: the never filled in (empty) table makes the lookup
at index 1 out of bounds (undefined behaviour), so there is no output at
all, whatever value the undeclared variable s2 happens to hold. -/
theorem c6_base64encode_fails_on_single_byte :
    ∀ s2v : Nat, base64encode s2v [0] = none := by
  intro s2v
  rfl

/-- Claim C7: the claim says decode rejects malformed input with
InvalidCharacter or InvalidLength.  The code has no error path at all:
decode of the single character 126 (not in any alphabet, length 1 is not
a positive multiple of 4) returns successfully with the empty output,
and decode of the four characters ABCD silently returns the garbage
bytes 255, 255 produced by truncating npos. -/
theorem c7_base64decode_accepts_invalid_input :
    base64decode [126] = some [] ∧ base64decode [65, 66, 67, 68] = some [255, 255] := by
  decide

/-- Claim C8: the claim says both transforms are total and never read
past the end.  The code refutes it: xor_head_with_tail yields no value
on any message in either direction, and the Duff device writes past the
end of a length 2 message. -/
theorem c8_transforms_are_not_total :
    (∀ (m : List Nat) (e : Bool), xor_head_with_tail m e = none)
      ∧ duffs_device kDuffsMask [1, 2] = none :=
  ⟨xhwt_always_none, by decide⟩

/-- Claim C9, counterexample: on the single byte message 0 the Duff
device writes out of bounds, so there is no result whose length could be
preserved. -/
theorem c9_singleton_has_no_result :
    ¬ ∃ out, duffs_device kDuffsMask [0] = some out ∧ out.length = 1 := by
  intro hc
  obtain ⟨out, h1, _⟩ := hc
  have hnone : duffs_device kDuffsMask [0] = none := by decide
  rw [hnone] at h1
  exact Option.noConfusion h1

/-- Claim C9, amended: for every mask, on messages of length 0 or at
least 4 the Duff device succeeds and leaves the length unchanged (it
only rewrites bytes in place); for lengths 1 to 3 it writes out of
bounds and has no defined result. -/
theorem c9_length_preserved_when_defined :
    ∀ (mask : Nat) (msg : List Nat), msg.length = 0 ∨ 4 ≤ msg.length →
      ∃ out, duffs_device mask msg = some out ∧ out.length = msg.length := by
  intro mask msg h
  rcases h with h0 | h4
  · have hnil : msg = [] := List.length_eq_zero.mp h0
    subst hnil
    exact ⟨[], rfl, rfl⟩
  · have hm : msg.length % 4 = 0 ∨ msg.length % 4 = 1 ∨ msg.length % 4 = 2
        ∨ msg.length % 4 = 3 := by omega
    simp only [duffs_device]
    rcases hm with h | h | h | h
    · rw [h, if_pos rfl]
      exact duffLoop_spec _ _ _ _ _ _ _ _ (by omega) (by omega)
    · rw [h, if_neg (by decide), if_pos rfl]
      obtain ⟨t1, e1, l1⟩ := duffXor_spec msg 1 (mask % 256) (by omega)
      obtain ⟨out, eo, lo⟩ := duffLoop_spec ((mask >>> 24) % 256) ((mask >>> 16) % 256)
        ((mask >>> 8) % 256) (mask % 256) ((msg.length : Int) - ((4 - 1 : Nat) : Int))
        (msg.length + 1) (1 + 1) t1 (by omega) (by omega)
      rw [e1, optSomeBind]
      rw [eo]
      exact ⟨out, rfl, by omega⟩
    · rw [h, if_neg (by decide), if_neg (by decide), if_pos rfl]
      obtain ⟨t1, e1, l1⟩ := duffXor_spec msg 2 ((mask >>> 8) % 256) (by omega)
      obtain ⟨t2, e2, l2⟩ := duffXor_spec t1 (2 + 1) (mask % 256) (by omega)
      obtain ⟨out, eo, lo⟩ := duffLoop_spec ((mask >>> 24) % 256) ((mask >>> 16) % 256)
        ((mask >>> 8) % 256) (mask % 256) ((msg.length : Int) - ((4 - 2 : Nat) : Int))
        (msg.length + 1) (2 + 2) t2 (by omega) (by omega)
      rw [e1, optSomeBind, e2, optSomeBind]
      rw [eo]
      exact ⟨out, rfl, by omega⟩
    · rw [h, if_neg (by decide), if_neg (by decide), if_neg (by decide)]
      obtain ⟨t1, e1, l1⟩ := duffXor_spec msg 3 ((mask >>> 16) % 256) (by omega)
      obtain ⟨t2, e2, l2⟩ := duffXor_spec t1 (3 + 1) ((mask >>> 8) % 256) (by omega)
      obtain ⟨t3, e3, l3⟩ := duffXor_spec t2 (3 + 2) (mask % 256) (by omega)
      obtain ⟨out, eo, lo⟩ := duffLoop_spec ((mask >>> 24) % 256) ((mask >>> 16) % 256)
        ((mask >>> 8) % 256) (mask % 256) ((msg.length : Int) - ((4 - 3 : Nat) : Int))
        (msg.length + 1) (3 + 3) t3 (by omega) (by omega)
      rw [e1, optSomeBind, e2, optSomeBind, e3, optSomeBind]
      rw [eo]
      exact ⟨out, rfl, by omega⟩

/-- Claim C9, witness: the amended theorem applied at a concrete length
4 message. -/
theorem c9_length_preserved_witness :
    (([10, 20, 30, 40] : List Nat).length = 0 ∨ 4 ≤ ([10, 20, 30, 40] : List Nat).length)
      ∧ ∃ out, duffs_device kDuffsMask [10, 20, 30, 40] = some out
          ∧ out.length = ([10, 20, 30, 40] : List Nat).length :=
  ⟨Or.inr (by decide),
    c9_length_preserved_when_defined kDuffsMask [10, 20, 30, 40] (Or.inr (by decide))⟩

/-- Claim C10, counterexample: at the non empty input of nine zero
characters the decode loop reads index 14 of a buffer of size 13 (five
reads per iteration run ahead of the consumed bits), which is undefined
behaviour, so there is no decoded output of any length. -/
theorem c10_strip_claim_false_at_length_nine :
    ¬ ∃ out, base64decode (List.replicate 9 0) = some out
        ∧ out.length = ((List.replicate 9 (0 : Nat)).length * 6 + 7) / 8 - 1 := by
  intro hc
  obtain ⟨out, h1, _⟩ := hc
  have hnone : base64decode (List.replicate 9 0) = none := by decide
  rw [hnone] at h1
  exact Option.noConfusion h1

/-- Claim C10, amended: for every non empty input whose length L keeps
the five reads per iteration inside the buffer (5 * ceil(L / 4) at most
L + 5), decode succeeds and its output length is the computed decoded
length (6 L + 7) / 8 minus one: the final strip is applied whether or
not the last byte is zero. -/
theorem c10_unconditional_strip_on_short_inputs :
    ∀ msg : List Nat, msg ≠ [] → 5 * ((msg.length + 3) / 4) ≤ msg.length + 5 →
      ∃ out, base64decode msg = some out ∧ out.length = (msg.length * 6 + 7) / 8 - 1 := by
  intro msg hne hshort
  have hlen1 : 1 ≤ msg.length := by
    cases msg with
    | nil => exact absurd rfl hne
    | cons a t => simp
  have hmlen : (msg ++ [45, 61, 61, 61]).length = msg.length + 4 := by
    simp
  obtain ⟨out0, eo, lo⟩ := decodeLoop_spec (msg ++ [45, 61, 61, 61]) (msg.length * 6)
    (msg.length * 6) 0 0 []
    (fun k hk => by rw [hmlen]; omega)
    (by omega)
  have hr1 : (resizeStr out0 msg.length).length = msg.length := resizeStr_length out0 msg.length
  have hne1 : resizeStr out0 msg.length ≠ [] := by
    intro hc
    rw [hc] at hr1
    simp at hr1
    omega
  obtain ⟨v, hv⟩ := Option.isSome_iff_exists.mp (List.getLast?_isSome.mpr hne1)
  simp only [base64decode]
  rw [eo, optSomeBind]
  rw [hv, optSomeBind]
  rw [if_neg (show ¬(msg.length * 6 + 7) / 8 = 0 by omega)]
  exact ⟨resizeStr (resizeStr out0 msg.length) ((msg.length * 6 + 7) / 8 - 1),
    rfl, by rw [resizeStr_length]⟩

/-- Claim C10, witness: the amended theorem applied at the one character
input 63. -/
theorem c10_unconditional_strip_witness :
    (([63] : List Nat) ≠ []
        ∧ 5 * ((([63] : List Nat).length + 3) / 4) ≤ ([63] : List Nat).length + 5)
      ∧ ∃ out, base64decode [63] = some out
          ∧ out.length = (([63] : List Nat).length * 6 + 7) / 8 - 1 :=
  ⟨⟨by decide, by decide⟩,
    c10_unconditional_strip_on_short_inputs [63] (by decide) (by decide)⟩

end EBH
